import Mathlib

/-!
Shallow embedding of the beat/tempo core of the RaveFlow repository:
the manual beat clock and tap-tempo helper (BeatClock.ts) and the
onset detector / tempo estimator (class BeatDetector in
src/scenes/CityFlythrough.ts).

Conventions of the embedding:
* JavaScript numbers are modelled as rationals (ℚ); quantities that the
  code stores as results of Math.round / Math.floor are modelled as ℤ.
* performance.now() is replaced by an explicit time argument.
* Math.floor is Int.floor; Math.round x is ⌊x + 1/2⌋ (JS rounds half up);
  the JS remainder a % b is a - b * trunc (a / b) (sign of the dividend).
* Math.sqrt has no rational counterpart, so the detector takes the square
  root function as an explicit parameter sq; no claim below depends on any
  property of the square root.
-/

set_option maxRecDepth 100000

namespace RaveFlow

/-- JS Math.round: round half toward +∞. -/
def jsRound (x : ℚ) : ℤ := ⌊x + 1/2⌋

/-- Truncation toward zero on ℚ, as JS uses for the remainder operator. -/
def ratTrunc (q : ℚ) : ℤ := if q < 0 then ⌈q⌉ else ⌊q⌋

/-- JS remainder `a % b` (truncated division remainder, sign of dividend). -/
def jsMod (a b : ℚ) : ℚ := a - b * (ratTrunc (a / b) : ℚ)

/-- Modelled from the spec: `clamp` from src/utils/math.ts is not in the
provided sources; the spec describes the knobs as clamped to their ranges,
so clamp is the usual min/max clamp. -/
def clamp (v lo hi : ℚ) : ℚ := min (max v lo) hi

/-! ## BeatClock (BeatClock.ts) -/

/-- The BeatInfo record returned by BeatClock.update. -/
structure BeatInfo where
  phase : ℚ
  intensity : ℚ
  isOnset : Bool
  bpm : ℚ
  deriving Repr, DecidableEq

/-- Mutable fields of class BeatClock. -/
structure ClockState where
  bpm : ℚ
  startTime : ℚ
  lastBeatTime : ℚ
  beatCount : ℤ
  isRunning : Bool
  deriving Repr, DecidableEq

namespace BeatClock

/-- Constructor `new BeatClock(bpm)`. -/
def init (bpm : ℚ) : ClockState :=
  { bpm := bpm, startTime := 0, lastBeatTime := 0, beatCount := 0, isRunning := false }

/-- BeatClock.start() at time `now`. -/
def start (s : ClockState) (now : ℚ) : ClockState :=
  { s with startTime := now, lastBeatTime := now, beatCount := 0, isRunning := true }

/-- BeatClock.stop(). -/
def stop (s : ClockState) : ClockState :=
  { s with isRunning := false }

/-- BeatClock.getPhase() at time `now`. -/
def getPhase (s : ClockState) (now : ℚ) : ℚ :=
  if s.isRunning = false then 0
  else jsMod (now - s.startTime) (60000 / s.bpm) / (60000 / s.bpm)

/-- BeatClock.setBPM(bpm) at time `now`: re-anchors startTime to keep the
current phase when the bpm actually changes
(newStart = now - currentPhase * newBeatDuration). -/
def setBPM (s : ClockState) (bpm : ℚ) (now : ℚ) : ClockState :=
  if bpm ≠ s.bpm then
    { s with bpm := bpm, startTime := now - getPhase s now * (60000 / bpm) }
  else s

/-- Beat index ⌊elapsed / beatDuration⌋ used inside update (Math.floor). -/
def beatIndex (s : ClockState) (now : ℚ) : ℤ :=
  ⌊(now - s.startTime) / (60000 / s.bpm)⌋

/-- BeatClock.update() at time `now`; returns the emitted BeatInfo and the
successor state. Onset fires when the beat index exceeds the stored
beatCount; in the onset branch lastBeatTime has just been set to now, so
timeSinceLastBeat is now - now. decayTime = beatDuration * 0.3. -/
def update (s : ClockState) (now : ℚ) : BeatInfo × ClockState :=
  if s.isRunning = false then
    ({ phase := 0, intensity := 0, isOnset := false, bpm := s.bpm }, s)
  else if beatIndex s now > s.beatCount then
    ({ phase := jsMod (now - s.startTime) (60000 / s.bpm) / (60000 / s.bpm),
       intensity := max 0 (1 - (now - now) / (60000 / s.bpm * (3/10))),
       isOnset := true, bpm := s.bpm },
     { s with beatCount := beatIndex s now, lastBeatTime := now })
  else
    ({ phase := jsMod (now - s.startTime) (60000 / s.bpm) / (60000 / s.bpm),
       intensity := max 0 (1 - (now - s.lastBeatTime) / (60000 / s.bpm * (3/10))),
       isOnset := false, bpm := s.bpm }, s)

end BeatClock

/-- Operations one can perform on a BeatClock, each timed where the code
reads performance.now(). -/
inductive ClockOp where
  | start (now : ℚ)
  | stop
  | setBPM (bpm now : ℚ)
  | update (now : ℚ)
  deriving Repr

/-- Apply one operation (update's returned BeatInfo is discarded here). -/
def applyClockOp (s : ClockState) (op : ClockOp) : ClockState :=
  match op with
  | .start now => BeatClock.start s now
  | .stop => BeatClock.stop s
  | .setBPM b now => BeatClock.setBPM s b now
  | .update now => (BeatClock.update s now).2

/-- Run a sequence of operations from the constructor state. -/
def runClock (bpm0 : ℚ) (ops : List ClockOp) : ClockState :=
  ops.foldl applyClockOp (BeatClock.init bpm0)

/-! ## TapTempo (BeatClock.ts) -/

/-- Mutable fields of class TapTempo (maxTaps = 8, maxInterval = 2000). -/
structure TapState where
  taps : List ℚ
  deriving Repr, DecidableEq

namespace TapTempo

/-- Fresh TapTempo. -/
def init : TapState := { taps := [] }

/-- The reset-on-gap guard at the top of tap(): discard all buffered taps
when the gap since the most recent one exceeds maxInterval = 2000 ms. -/
def resetIfStale (taps : List ℚ) (now : ℚ) : List ℚ :=
  match taps.getLast? with
  | some l => if now - l > 2000 then [] else taps
  | none => taps

/-- The buffer after one tap at `now`: reset-on-gap, push, then shift the
oldest out when more than maxTaps = 8 are held. -/
def pushTap (taps : List ℚ) (now : ℚ) : List ℚ :=
  if (resetIfStale taps now ++ [now]).length > 8 then (resetIfStale taps now ++ [now]).tail
  else resetIfStale taps now ++ [now]

/-- The mean of consecutive inter-tap intervals of a buffer. -/
def avgIntervalOf (taps : List ℚ) : ℚ :=
  (List.zipWith (fun a b => b - a) taps taps.tail).sum / ((taps.length : ℚ) - 1)

/-- TapTempo.tap() at time `now`: returns the BPM estimate (none while
fewer than 2 taps are buffered) and the successor state. -/
def tap (s : TapState) (now : ℚ) : Option ℤ × TapState :=
  if (pushTap s.taps now).length < 2 then (none, { taps := pushTap s.taps now })
  else
    (some (max 60 (min 200 (jsRound (60000 / avgIntervalOf (pushTap s.taps now))))),
      { taps := pushTap s.taps now })

/-- TapTempo.reset(). -/
def reset (_s : TapState) : TapState := { taps := [] }

/-- Fold a list of tap times through tap(), keeping only the state. -/
def tapRun (times : List ℚ) : TapState :=
  times.foldl (fun s t => (tap s t).2) init

end TapTempo

/-! ## BeatDetector (src/scenes/CityFlythrough.ts) -/

/-- Mutable fields of class BeatDetector (historySize = 43, maxOnsets = 32,
minOnsetInterval = 200). -/
structure DetState where
  sensitivity : ℚ
  smoothing : ℚ
  energyHistory : List ℚ
  lastEnergy : ℚ
  threshold : ℚ
  onsetTimes : List ℚ
  estimatedBPM : ℤ
  bpmLocked : Bool
  lockedBPM : ℤ
  lastOnsetTime : ℚ
  deriving Repr, DecidableEq

namespace BeatDetector

/-- Constructor state of BeatDetector. -/
def init : DetState :=
  { sensitivity := 1/2, smoothing := 8/10, energyHistory := [], lastEnergy := 0,
    threshold := 0, onsetTimes := [], estimatedBPM := 140, bpmLocked := false,
    lockedBPM := 140, lastOnsetTime := 0 }

/-- BeatDetector.setSensitivity(value). -/
def setSensitivity (s : DetState) (v : ℚ) : DetState :=
  { s with sensitivity := clamp v 0 1 }

/-- BeatDetector.setSmoothing(value). -/
def setSmoothing (s : DetState) (v : ℚ) : DetState :=
  { s with smoothing := clamp v 0 (99/100) }

/-- Consecutive inter-onset intervals onsetTimes[i] - onsetTimes[i-1],
filtered to the window (315, 500), as the loop in estimateBPM builds them. -/
def intervalsOf (ts : List ℚ) : List ℚ :=
  (List.zipWith (fun a b => b - a) ts ts.tail).filter (fun iv => 315 < iv ∧ iv < 500)

/-- One Map.set step of the histogram loop: increment the bucket in place if
present (JS Map keeps insertion order), else append it with count 1. -/
def insertBucket (m : List (ℤ × ℕ)) (k : ℤ) : List (ℤ × ℕ) :=
  if m.any (fun p => p.1 = k) then
    m.map (fun p => if p.1 = k then (p.1, p.2 + 1) else p)
  else m ++ [(k, 1)]

/-- The 10 ms histogram of intervals: bucket key Math.round(iv/10)*10. -/
def bucketsOf (intervals : List ℚ) : List (ℤ × ℕ) :=
  intervals.foldl (fun m iv => insertBucket m (jsRound (iv / 10) * 10)) []

/-- The modal-bucket scan: starts from maxCount = 0, bestInterval = 428 and
takes the first strictly larger count, in insertion order. -/
def bestIntervalOf (buckets : List (ℤ × ℕ)) : ℤ :=
  (buckets.foldl (fun acc p => if p.2 > acc.1 then (p.2, p.1) else acc) (0, 428)).2

/-- The exponential smoothing step Math.round(est*0.7 + bpm*0.3). -/
def smoothBPM (est bpm : ℤ) : ℤ :=
  jsRound ((est : ℚ) * (7/10) + (bpm : ℚ) * (3/10))

/-- The candidate BPM estimateBPM derives from the onset list:
Math.round(60000 / bestInterval). -/
def candidateOf (ts : List ℚ) : ℤ :=
  jsRound (60000 / ((bestIntervalOf (bucketsOf (intervalsOf ts))) : ℚ))

/-- BeatDetector.estimateBPM(). -/
def estimateBPM (s : DetState) : DetState :=
  if s.onsetTimes.length < 4 then s
  else if (intervalsOf s.onsetTimes).length < 2 then s
  else if 120 ≤ candidateOf s.onsetTimes ∧ candidateOf s.onsetTimes ≤ 190 then
    { s with estimatedBPM := smoothBPM s.estimatedBPM (candidateOf s.onsetTimes) }
  else s

/-- The onset list after pushing one time: shift the oldest out when the
size exceeds maxOnsets = 32. -/
def pushOnset (ts : List ℚ) (t : ℚ) : List ℚ :=
  if (ts ++ [t]).length > 32 then (ts ++ [t]).tail else ts ++ [t]

/-- BeatDetector.recordOnset(time): store the time, then re-estimate
unless the BPM is locked. -/
def recordOnset (s : DetState) (time : ℚ) : DetState :=
  if s.bpmLocked = false then
    estimateBPM { s with onsetTimes := pushOnset s.onsetTimes time }
  else { s with onsetTimes := pushOnset s.onsetTimes time }

/-- The combined frame energy before the square root: bass bins (first 20)
weighted 0.7, full spectrum weighted 0.3, divided by the bin count. -/
def rawEnergy (frequencyData bassData : List ℚ) : ℚ :=
  (((bassData.take 20).map (fun x => x * x * (7/10))).sum
    + (frequencyData.map (fun x => x * x * (3/10))).sum) / (frequencyData.length : ℚ)

/-- The exponentially smoothed frame energy:
lastEnergy * smoothing + sqrt(rawEnergy) * (1 - smoothing). -/
def frameEnergy (sq : ℚ → ℚ) (s : DetState) (frequencyData bassData : List ℚ) : ℚ :=
  s.lastEnergy * s.smoothing + sq (rawEnergy frequencyData bassData) * (1 - s.smoothing)

/-- The energy-history window after appending one sample: push, then shift
the oldest sample out when the size exceeds historySize = 43. -/
def pushHist (hist : List ℚ) (e : ℚ) : List ℚ :=
  if (hist ++ [e]).length > 43 then (hist ++ [e]).tail else hist ++ [e]

/-- The adaptive threshold mean + stddev * (1.5 - sensitivity) over a
history window. -/
def thresholdOf (sq : ℚ → ℚ) (hist : List ℚ) (sensitivity : ℚ) : ℚ :=
  hist.sum / (hist.length : ℚ) +
    sq ((hist.map (fun b => (b - hist.sum / (hist.length : ℚ)) ^ 2)).sum / (hist.length : ℚ))
      * (3/2 - sensitivity)

/-- BeatDetector.detectOnset(frequencyData, bassData) at time `now`.
`sq` stands in for Math.sqrt (no claim uses its value). Returns the onset
flag and the successor state; the first branch is the < 10 samples
cold-start guard (no threshold assignment there, as in the code). -/
def detectOnset (sq : ℚ → ℚ) (s : DetState) (frequencyData bassData : List ℚ)
    (now : ℚ) : Bool × DetState :=
  if (pushHist s.energyHistory (frameEnergy sq s frequencyData bassData)).length < 10 then
    (false, { s with
      lastEnergy := frameEnergy sq s frequencyData bassData,
      energyHistory := pushHist s.energyHistory (frameEnergy sq s frequencyData bassData) })
  else if frameEnergy sq s frequencyData bassData >
        thresholdOf sq (pushHist s.energyHistory (frameEnergy sq s frequencyData bassData))
          s.sensitivity
      ∧ now - s.lastOnsetTime > 200 then
    (true, recordOnset { s with
      lastEnergy := frameEnergy sq s frequencyData bassData,
      energyHistory := pushHist s.energyHistory (frameEnergy sq s frequencyData bassData),
      threshold := thresholdOf sq
        (pushHist s.energyHistory (frameEnergy sq s frequencyData bassData)) s.sensitivity,
      lastOnsetTime := now } now)
  else
    (false, { s with
      lastEnergy := frameEnergy sq s frequencyData bassData,
      energyHistory := pushHist s.energyHistory (frameEnergy sq s frequencyData bassData),
      threshold := thresholdOf sq
        (pushHist s.energyHistory (frameEnergy sq s frequencyData bassData)) s.sensitivity })

/-- BeatDetector.getEstimatedBPM(). -/
def getEstimatedBPM (s : DetState) : ℤ :=
  if s.bpmLocked then s.lockedBPM else s.estimatedBPM

/-- BeatDetector.lockBPM(). -/
def lockBPM (s : DetState) : DetState :=
  { s with bpmLocked := true, lockedBPM := s.estimatedBPM }

/-- BeatDetector.unlockBPM(). -/
def unlockBPM (s : DetState) : DetState :=
  { s with bpmLocked := false }

/-- BeatDetector.reset(). -/
def reset (s : DetState) : DetState :=
  { s with
    energyHistory := []
    onsetTimes := []
    lastEnergy := 0
    lastOnsetTime := 0
    estimatedBPM := 140
    bpmLocked := false }

end BeatDetector

/-- The public operations of a BeatDetector, timed where the code reads
performance.now(). recordOnset is private in the source but is reachable
only through detectOnset; it is still listed so the reachable-state
theorems cover it directly. -/
inductive DetOp where
  | detect (frequencyData bassData : List ℚ) (now : ℚ)
  | record (time : ℚ)
  | lock
  | unlock
  | reset
  | setSensitivity (v : ℚ)
  | setSmoothing (v : ℚ)
  deriving Repr

/-- Apply one operation (detectOnset's returned flag is discarded here). -/
def applyDetOp (sq : ℚ → ℚ) (s : DetState) (op : DetOp) : DetState :=
  match op with
  | .detect f b now => (BeatDetector.detectOnset sq s f b now).2
  | .record t => BeatDetector.recordOnset s t
  | .lock => BeatDetector.lockBPM s
  | .unlock => BeatDetector.unlockBPM s
  | .reset => BeatDetector.reset s
  | .setSensitivity v => BeatDetector.setSensitivity s v
  | .setSmoothing v => BeatDetector.setSmoothing s v

/-- Run a sequence of operations from the constructor state. -/
def runDet (sq : ℚ → ℚ) (ops : List DetOp) : DetState :=
  ops.foldl (applyDetOp sq) BeatDetector.init

/-! ## Field-preservation lemmas for the detector -/

namespace BeatDetector

lemma estimateBPM_onsetTimes (s : DetState) :
    (estimateBPM s).onsetTimes = s.onsetTimes := by
  unfold estimateBPM
  split
  · rfl
  · split
    · rfl
    · split <;> rfl

lemma estimateBPM_bpmLocked (s : DetState) :
    (estimateBPM s).bpmLocked = s.bpmLocked := by
  unfold estimateBPM
  split
  · rfl
  · split
    · rfl
    · split <;> rfl

lemma estimateBPM_lockedBPM (s : DetState) :
    (estimateBPM s).lockedBPM = s.lockedBPM := by
  unfold estimateBPM
  split
  · rfl
  · split
    · rfl
    · split <;> rfl

lemma estimateBPM_energyHistory (s : DetState) :
    (estimateBPM s).energyHistory = s.energyHistory := by
  unfold estimateBPM
  split
  · rfl
  · split
    · rfl
    · split <;> rfl

/-- recordOnset with the lock held: only the onset list changes. -/
lemma recordOnset_locked (s : DetState) (t : ℚ) (h : s.bpmLocked = true) :
    recordOnset s t = { s with onsetTimes := pushOnset s.onsetTimes t } := by
  unfold recordOnset
  simp [h]

/-- recordOnset while unlocked: push/evict the time, then re-estimate. -/
lemma recordOnset_unlocked (s : DetState) (t : ℚ) (h : s.bpmLocked = false) :
    recordOnset s t = estimateBPM { s with onsetTimes := pushOnset s.onsetTimes t } := by
  unfold recordOnset
  simp [h]

lemma recordOnset_energyHistory (s : DetState) (t : ℚ) :
    (recordOnset s t).energyHistory = s.energyHistory := by
  cases h : s.bpmLocked
  · rw [recordOnset_unlocked s t h, estimateBPM_energyHistory]
  · rw [recordOnset_locked s t h]

end BeatDetector

/-! ## Claim C5 -/

/-- Claim C5: whenever the onset detector's energy history (the history the
detector holds at the cold-start guard, i.e. including the sample appended
by the current call) has fewer than 10 samples, detectOnset returns false,
for every input frame, bass slice, square-root function, sensitivity and
smoothing setting. -/
theorem claim_C5 (sq : ℚ → ℚ) (s : DetState) (frequencyData bassData : List ℚ)
    (now : ℚ)
    (h : (BeatDetector.detectOnset sq s frequencyData bassData now).2.energyHistory.length < 10) :
    (BeatDetector.detectOnset sq s frequencyData bassData now).1 = false := by
  unfold BeatDetector.detectOnset at h ⊢
  split at h
  · split
    · rfl
    · omega
  · exfalso
    split at h
    · rw [BeatDetector.recordOnset_energyHistory] at h
      simp only at h
      omega
    · simp only at h
      omega

/-- Witness for C5: a fresh detector fed one frame holds 1 < 10 history
samples and reports no onset. -/
theorem claim_C5_witness :
    (BeatDetector.detectOnset id BeatDetector.init [1] [1] 1000).2.energyHistory.length < 10 ∧
    (BeatDetector.detectOnset id BeatDetector.init [1] [1] 1000).1 = false :=
  ⟨by with_unfolding_all decide,
    claim_C5 id BeatDetector.init [1] [1] 1000 (by with_unfolding_all decide)⟩

/-! ## Claim C6 -/

/-- Claim C6: in a re-estimation that reaches the candidate computation
(≥ 4 onsets, ≥ 2 surviving intervals), the candidate
round(60000/bestInterval) is smoothed into the estimate when it lies in
[120,190], and for any candidate outside that range the previous estimate
is retained unchanged. -/
theorem claim_C6 (s : DetState) (h4 : 4 ≤ s.onsetTimes.length)
    (h2 : 2 ≤ (BeatDetector.intervalsOf s.onsetTimes).length) :
    (120 ≤ BeatDetector.candidateOf s.onsetTimes ∧ BeatDetector.candidateOf s.onsetTimes ≤ 190 →
      (BeatDetector.estimateBPM s).estimatedBPM
        = BeatDetector.smoothBPM s.estimatedBPM (BeatDetector.candidateOf s.onsetTimes)) ∧
    (¬(120 ≤ BeatDetector.candidateOf s.onsetTimes ∧ BeatDetector.candidateOf s.onsetTimes ≤ 190) →
      (BeatDetector.estimateBPM s).estimatedBPM = s.estimatedBPM) := by
  unfold BeatDetector.estimateBPM
  rw [if_neg (by omega), if_neg (by omega)]
  constructor
  · intro h
    rw [if_pos h]
  · intro h
    rw [if_neg h]

/-- Witness for C6: four onsets 400 ms apart give the in-range candidate
round(60000/400) = 150, which is smoothed into the estimate. -/
theorem claim_C6_witness :
    (BeatDetector.estimateBPM
        { BeatDetector.init with onsetTimes := [0, 400, 800, 1200] }).estimatedBPM
      = BeatDetector.smoothBPM 140 (BeatDetector.candidateOf [0, 400, 800, 1200]) :=
  (claim_C6 { BeatDetector.init with onsetTimes := [0, 400, 800, 1200] }
    (by with_unfolding_all decide) (by with_unfolding_all decide)).1 (by with_unfolding_all decide)

/-! ## Claim C7 -/

/-- Claim C7: tempo smoothing is idempotent at steady state: when the
candidate equals the current estimate, iterating the smoothing update
est := round(est*0.7 + candidate*0.3) any number of times leaves the
estimate exactly constant. -/
theorem claim_C7 (est : ℤ) (n : ℕ) :
    (fun e => BeatDetector.smoothBPM e est)^[n] est = est := by
  induction n with
  | zero => rfl
  | succ k ih =>
    rw [Function.iterate_succ_apply', ih]
    show BeatDetector.smoothBPM est est = est
    unfold BeatDetector.smoothBPM jsRound
    have h1 : (est : ℚ) * (7/10) + (est : ℚ) * (3/10) + 1/2 = 1/2 + (est : ℚ) := by ring
    rw [h1, Int.floor_add_int]
    norm_num

/-! ## Claim C8 -/

/-- Claim C8: tap() discards all previously buffered taps before recording
the new one whenever the gap since the most recent tap exceeds 2000 ms
(the buffer then holds exactly the new tap); in particular for taps at
t = 0, 500, 3000, 3500 the buffer ends with exactly 2 taps, not 3. -/
theorem claim_C8 (s : TapState) (now l : ℚ) (hl : s.taps.getLast? = some l)
    (hgap : now - l > 2000) :
    (TapTempo.tap s now).2.taps = [now] ∧
    (TapTempo.tapRun [0, 500, 3000, 3500]).taps.length = 2 := by
  have hreset : TapTempo.resetIfStale s.taps now = [] := by
    simp only [TapTempo.resetIfStale, hl]
    exact if_pos hgap
  have hpush : TapTempo.pushTap s.taps now = [now] := by
    unfold TapTempo.pushTap
    rw [hreset]
    simp
  constructor
  · unfold TapTempo.tap
    rw [hpush]
    simp
  · with_unfolding_all decide

/-- Witness for C8: a buffer [0, 500] tapped at t = 3000 (gap 2500 > 2000)
resets to exactly [3000]. -/
theorem claim_C8_witness :
    (TapTempo.tap { taps := [0, 500] } 3000).2.taps = [(3000 : ℚ)] ∧
    (TapTempo.tapRun [0, 500, 3000, 3500]).taps.length = 2 :=
  claim_C8 { taps := [0, 500] } 3000 500 (by with_unfolding_all decide)
    (by with_unfolding_all decide)

/-! ## Claim C3 -/

/-- Any run of recordOnset calls against a locked detector: the lock stays,
the locked and live estimates are untouched, and the onset list is the
capacity-32 suffix of the old list plus the new times. -/
lemma lockedFold (ts : List ℚ) : ∀ s : DetState, s.bpmLocked = true →
    s.onsetTimes.length ≤ 32 →
    ((ts.foldl BeatDetector.recordOnset s).bpmLocked = true ∧
     (ts.foldl BeatDetector.recordOnset s).lockedBPM = s.lockedBPM ∧
     (ts.foldl BeatDetector.recordOnset s).estimatedBPM = s.estimatedBPM ∧
     (ts.foldl BeatDetector.recordOnset s).onsetTimes
        = (s.onsetTimes ++ ts).drop (s.onsetTimes.length + ts.length - 32)) := by
  induction ts with
  | nil =>
    intro s hlock hlen
    refine ⟨hlock, rfl, rfl, ?_⟩
    simp [Nat.sub_eq_zero_of_le hlen]
  | cons t ts ih =>
    intro s hlock hlen
    rw [List.foldl_cons, BeatDetector.recordOnset_locked s t hlock]
    unfold BeatDetector.pushOnset
    by_cases hcap : (s.onsetTimes ++ [t]).length > 32
    · have hlen32 : s.onsetTimes.length = 32 := by
        simp at hcap; omega
      obtain ⟨x, rest, hx⟩ : ∃ x rest, s.onsetTimes = x :: rest := by
        cases h : s.onsetTimes with
        | nil => rw [h] at hlen32; simp at hlen32
        | cons a as => exact ⟨a, as, rfl⟩
      rw [if_pos hcap]
      have := ih { s with onsetTimes := (s.onsetTimes ++ [t]).tail } hlock
        (by simp; omega)
      refine ⟨this.1, this.2.1, this.2.2.1, ?_⟩
      rw [this.2.2.2]
      simp only [hx, List.cons_append, List.tail_cons]
      have hr : rest.length = 31 := by rw [hx] at hlen32; simp at hlen32; omega
      have h1 : (rest ++ [t]).length + ts.length - 32 = ts.length := by
        simp [hr]
      have h2 : (x :: rest).length + (t :: ts).length - 32 = ts.length + 1 := by
        simp [hr]
      rw [h1, h2, List.append_assoc, List.singleton_append, List.drop_succ_cons]
    · rw [if_neg hcap]
      have := ih { s with onsetTimes := s.onsetTimes ++ [t] } hlock
        (by simp at hcap ⊢; omega)
      refine ⟨this.1, this.2.1, this.2.2.1, ?_⟩
      rw [this.2.2.2]
      have h3 : (s.onsetTimes ++ [t]).length + ts.length - 32
          = s.onsetTimes.length + (t :: ts).length - 32 := by
        simp only [List.length_append, List.length_cons, List.length_nil]
        omega
      rw [h3, List.append_assoc, List.singleton_append]

/-- Claim C3: locking is absorbing: after lockBPM, any number of
recordOnset calls leaves getEstimatedBPM equal to the estimate snapshot
taken at lock time, the lock stays held, and the onsets are still stored
(the list becomes the capacity-32 suffix of old ++ new). -/
theorem claim_C3 (s0 : DetState) (ts : List ℚ) (hlen : s0.onsetTimes.length ≤ 32) :
    BeatDetector.getEstimatedBPM (ts.foldl BeatDetector.recordOnset (BeatDetector.lockBPM s0))
        = s0.estimatedBPM ∧
    (ts.foldl BeatDetector.recordOnset (BeatDetector.lockBPM s0)).bpmLocked = true ∧
    (ts.foldl BeatDetector.recordOnset (BeatDetector.lockBPM s0)).onsetTimes
        = (s0.onsetTimes ++ ts).drop (s0.onsetTimes.length + ts.length - 32) := by
  have h := lockedFold ts (BeatDetector.lockBPM s0) rfl hlen
  refine ⟨?_, h.1, h.2.2.2⟩
  unfold BeatDetector.getEstimatedBPM
  rw [h.1, if_pos rfl]
  exact h.2.1

/-- Witness for C3: a locked fresh detector (snapshot 140) fed five onsets
still reports 140 and still buffers the five onset times. -/
theorem claim_C3_witness :
    BeatDetector.getEstimatedBPM
        ([0, 400, 800, 1200, 1600].foldl BeatDetector.recordOnset
          (BeatDetector.lockBPM BeatDetector.init)) = 140 ∧
    ([0, 400, 800, 1200, 1600].foldl BeatDetector.recordOnset
        (BeatDetector.lockBPM BeatDetector.init)).onsetTimes = [0, 400, 800, 1200, 1600] := by
  have h := claim_C3 BeatDetector.init [0, 400, 800, 1200, 1600] (by decide)
  exact ⟨h.1, by rw [h.2.2]; rfl⟩

/-! ## Claim C4 -/

lemma ratTrunc_eq_zero {p : ℚ} (h1 : -1 < p) (h2 : p < 1) : ratTrunc p = 0 := by
  unfold ratTrunc
  split
  · rename_i hneg
    rw [Int.ceil_eq_zero_iff]
    exact ⟨h1, hneg.le⟩
  · rename_i hpos
    rw [Int.floor_eq_zero_iff]
    exact ⟨le_of_not_lt hpos, h2⟩

lemma sub_ratTrunc_bounds (q : ℚ) : -1 < q - ratTrunc q ∧ q - ratTrunc q < 1 := by
  unfold ratTrunc
  split
  · constructor
    · have := Int.ceil_lt_add_one q
      linarith
    · have := Int.le_ceil q
      linarith
  · constructor
    · have := Int.floor_le q
      linarith
    · have := Int.sub_one_lt_floor q
      linarith

/-- While running with a nonzero bpm, the phase is the fractional-like part
q - trunc q of the elapsed-beats quantity q = elapsed / beatDuration. -/
lemma getPhase_eq (s : ClockState) (now : ℚ) (hrun : s.isRunning = true)
    (hbpm : s.bpm ≠ 0) :
    BeatClock.getPhase s now =
      (now - s.startTime) / (60000 / s.bpm)
        - ratTrunc ((now - s.startTime) / (60000 / s.bpm)) := by
  unfold BeatClock.getPhase jsMod
  rw [if_neg (by simp [hrun])]
  have hD : (60000 : ℚ) / s.bpm ≠ 0 := div_ne_zero (by norm_num) hbpm
  field_simp

lemma getPhase_bounds (s : ClockState) (now : ℚ) (hrun : s.isRunning = true)
    (hbpm : s.bpm ≠ 0) :
    -1 < BeatClock.getPhase s now ∧ BeatClock.getPhase s now < 1 := by
  rw [getPhase_eq s now hrun hbpm]
  exact sub_ratTrunc_bounds _

/-- Claim C4: setBPM preserves the phase at the instant of the call: for a
running clock with nonzero old and new bpm, the phase read immediately
after setBPM equals the phase immediately before it. -/
theorem claim_C4 (s : ClockState) (b now : ℚ) (hrun : s.isRunning = true)
    (hbpm : s.bpm ≠ 0) (hb : b ≠ 0) :
    BeatClock.getPhase (BeatClock.setBPM s b now) now = BeatClock.getPhase s now := by
  unfold BeatClock.setBPM
  by_cases hne : b ≠ s.bpm
  · rw [if_pos hne]
    have hD : (60000 : ℚ) / b ≠ 0 := div_ne_zero (by norm_num) hb
    obtain ⟨hp1, hp2⟩ := getPhase_bounds s now hrun hbpm
    set p := BeatClock.getPhase s now with hp
    unfold BeatClock.getPhase jsMod
    rw [if_neg (by simp [hrun])]
    simp only
    have he : now - (now - p * (60000 / b)) = p * (60000 / b) := by ring
    rw [he]
    rw [mul_div_cancel_right₀ p hD]
    rw [ratTrunc_eq_zero hp1 hp2]
    push_cast
    field_simp
  · rw [if_neg hne]

/-- Witness for C4: a clock started at 0 with bpm 140 keeps its phase 0.7
when retuned to bpm 100 at t = 300. -/
theorem claim_C4_witness :
    BeatClock.getPhase
        (BeatClock.setBPM (BeatClock.start (BeatClock.init 140) 0) 100 300) 300
      = BeatClock.getPhase (BeatClock.start (BeatClock.init 140) 0) 300 :=
  claim_C4 (BeatClock.start (BeatClock.init 140) 0) 100 300 rfl
    (by with_unfolding_all decide) (by with_unfolding_all decide)

/-! ## Claim C1 -/

/-- Claim C1: for every sequence of beat-clock operations ending in a
running state, the BeatInfo emitted by update() has isOnset = true exactly
when the beat index floor(elapsed / beatDuration) exceeds the last
recorded index beatCount (beat-crossing detection, valid across
intervening setBPM calls); on an onset the index is recorded as the new
beatCount. -/
theorem claim_C1 (bpm0 : ℚ) (ops : List ClockOp) (now : ℚ)
    (hrun : (runClock bpm0 ops).isRunning = true) :
    ((BeatClock.update (runClock bpm0 ops) now).1.isOnset = true ↔
      BeatClock.beatIndex (runClock bpm0 ops) now > (runClock bpm0 ops).beatCount) ∧
    ((BeatClock.update (runClock bpm0 ops) now).1.isOnset = true →
      (BeatClock.update (runClock bpm0 ops) now).2.beatCount
        = BeatClock.beatIndex (runClock bpm0 ops) now) := by
  set s := runClock bpm0 ops with hs
  unfold BeatClock.update
  rw [if_neg (by simp [hrun])]
  by_cases h : BeatClock.beatIndex s now > s.beatCount
  · rw [if_pos h]
    exact ⟨⟨fun _ => h, fun _ => rfl⟩, fun _ => rfl⟩
  · rw [if_neg h]
    exact ⟨⟨fun hh => absurd hh (by simp), fun hh => absurd hh h⟩,
      fun hh => absurd hh (by simp)⟩

/-- Witness for C1: after start at t = 0 with bpm 140, the update at
t = 450 (just past one 428.57 ms beat) fires an onset and records index 1. -/
theorem claim_C1_witness :
    ((BeatClock.update (runClock 140 [ClockOp.start 0]) 450).1.isOnset = true ↔
      BeatClock.beatIndex (runClock 140 [ClockOp.start 0]) 450
        > (runClock 140 [ClockOp.start 0]).beatCount) ∧
    ((BeatClock.update (runClock 140 [ClockOp.start 0]) 450).1.isOnset = true →
      (BeatClock.update (runClock 140 [ClockOp.start 0]) 450).2.beatCount
        = BeatClock.beatIndex (runClock 140 [ClockOp.start 0]) 450) :=
  claim_C1 140 [ClockOp.start 0] 450 rfl

/-! ## Claim C9 -/

/-- Claim C9: changing the BPM while running after N ≥ 1 whole beats makes
the re-anchored beat index restart at 0 while the stored beatCount stays
N; every subsequent update whose recomputed beat index is still ≤ N
reports isOnset = false and leaves the state unchanged (so onsets are
suppressed until the index again exceeds N). -/
theorem claim_C9 (s : ClockState) (b now : ℚ) (hrun : s.isRunning = true)
    (hbpm : 0 < s.bpm) (hb : 0 < b) (hne : b ≠ s.bpm) (hstart : s.startTime ≤ now)
    (hN : 1 ≤ s.beatCount) :
    (BeatClock.setBPM s b now).beatCount = s.beatCount ∧
    BeatClock.beatIndex (BeatClock.setBPM s b now) now = 0 ∧
    ∀ t : ℚ, BeatClock.beatIndex (BeatClock.setBPM s b now) t ≤ s.beatCount →
      (BeatClock.update (BeatClock.setBPM s b now) t).1.isOnset = false ∧
      (BeatClock.update (BeatClock.setBPM s b now) t).2 = BeatClock.setBPM s b now := by
  have hD : (0 : ℚ) < 60000 / b := div_pos (by norm_num) hb
  have hDs : (0 : ℚ) < 60000 / s.bpm := div_pos (by norm_num) hbpm
  have hphase : 0 ≤ BeatClock.getPhase s now ∧ BeatClock.getPhase s now < 1 := by
    rw [getPhase_eq s now hrun (ne_of_gt hbpm)]
    set q := (now - s.startTime) / (60000 / s.bpm) with hq
    have hq0 : 0 ≤ q := div_nonneg (by linarith) hDs.le
    have htr : ratTrunc q = ⌊q⌋ := by
      unfold ratTrunc
      rw [if_neg (not_lt.mpr hq0)]
    rw [htr]
    constructor
    · have := Int.floor_le q
      linarith
    · have := Int.sub_one_lt_floor q
      linarith
  have hset : BeatClock.setBPM s b now =
      { s with bpm := b, startTime := now - BeatClock.getPhase s now * (60000 / b) } := by
    unfold BeatClock.setBPM
    rw [if_pos hne]
  refine ⟨by rw [hset], ?_, ?_⟩
  · rw [hset]
    unfold BeatClock.beatIndex
    simp only
    have he : now - (now - BeatClock.getPhase s now * (60000 / b))
        = BeatClock.getPhase s now * (60000 / b) := by ring
    rw [he, mul_div_cancel_right₀ _ (ne_of_gt hD)]
    rw [Int.floor_eq_zero_iff]
    exact ⟨hphase.1, hphase.2⟩
  · intro t hidx
    have hrun2 : (BeatClock.setBPM s b now).isRunning = true := by rw [hset]; exact hrun
    have hcnt : (BeatClock.setBPM s b now).beatCount = s.beatCount := by rw [hset]
    unfold BeatClock.update
    rw [if_neg (by simp [hrun2])]
    rw [if_neg (by rw [hcnt]; exact not_lt.mpr hidx)]
    exact ⟨rfl, rfl⟩

/-- Witness for C9: a 140 bpm clock with one recorded beat, retuned to 100
bpm at t = 600: the index restarts at 0 and the update at t = 700 (index
still 0 ≤ 1) fires no onset and changes nothing. -/
theorem claim_C9_witness :
    ((BeatClock.setBPM ((BeatClock.update (BeatClock.start (BeatClock.init 140) 0) 500).2)
        100 600).beatCount
      = ((BeatClock.update (BeatClock.start (BeatClock.init 140) 0) 500).2).beatCount) ∧
    BeatClock.beatIndex (BeatClock.setBPM
        ((BeatClock.update (BeatClock.start (BeatClock.init 140) 0) 500).2) 100 600) 600 = 0 ∧
    ∀ t : ℚ, BeatClock.beatIndex (BeatClock.setBPM
        ((BeatClock.update (BeatClock.start (BeatClock.init 140) 0) 500).2) 100 600) t
        ≤ ((BeatClock.update (BeatClock.start (BeatClock.init 140) 0) 500).2).beatCount →
      (BeatClock.update (BeatClock.setBPM
          ((BeatClock.update (BeatClock.start (BeatClock.init 140) 0) 500).2) 100 600) t).1.isOnset
        = false ∧
      (BeatClock.update (BeatClock.setBPM
          ((BeatClock.update (BeatClock.start (BeatClock.init 140) 0) 500).2) 100 600) t).2
        = BeatClock.setBPM
            ((BeatClock.update (BeatClock.start (BeatClock.init 140) 0) 500).2) 100 600 :=
  claim_C9 ((BeatClock.update (BeatClock.start (BeatClock.init 140) 0) 500).2) 100 600
    (by with_unfolding_all decide) (by with_unfolding_all decide)
    (by with_unfolding_all decide) (by with_unfolding_all decide)
    (by with_unfolding_all decide) (by with_unfolding_all decide)

/-! ## Claim C10 -/

/-- The range invariant: both the live and the locked estimate lie in
[120, 190]. -/
def detInv (s : DetState) : Prop :=
  120 ≤ s.estimatedBPM ∧ s.estimatedBPM ≤ 190 ∧ 120 ≤ s.lockedBPM ∧ s.lockedBPM ≤ 190

lemma smoothBPM_bounds (e c : ℤ) (he1 : 120 ≤ e) (he2 : e ≤ 190)
    (hc1 : 120 ≤ c) (hc2 : c ≤ 190) :
    120 ≤ BeatDetector.smoothBPM e c ∧ BeatDetector.smoothBPM e c ≤ 190 := by
  unfold BeatDetector.smoothBPM jsRound
  have h1 : (120 : ℚ) ≤ (e : ℚ) := by exact_mod_cast he1
  have h2 : (120 : ℚ) ≤ (c : ℚ) := by exact_mod_cast hc1
  have h3 : (e : ℚ) ≤ 190 := by exact_mod_cast he2
  have h4 : (c : ℚ) ≤ 190 := by exact_mod_cast hc2
  constructor
  · rw [Int.le_floor]
    push_cast
    linarith
  · have hlt : ⌊(e : ℚ) * (7/10) + (c : ℚ) * (3/10) + 1/2⌋ < 191 := by
      rw [Int.floor_lt]
      push_cast
      linarith
    omega

lemma estimateBPM_inv (s : DetState) (h : detInv s) :
    detInv (BeatDetector.estimateBPM s) := by
  unfold BeatDetector.estimateBPM
  split
  · exact h
  · split
    · exact h
    · split
      · rename_i hc
        exact ⟨(smoothBPM_bounds _ _ h.1 h.2.1 hc.1 hc.2).1,
          (smoothBPM_bounds _ _ h.1 h.2.1 hc.1 hc.2).2, h.2.2⟩
      · exact h

lemma recordOnset_inv (s : DetState) (t : ℚ) (h : detInv s) :
    detInv (BeatDetector.recordOnset s t) := by
  unfold BeatDetector.recordOnset
  split
  · exact estimateBPM_inv _ h
  · exact h

lemma detectOnset_inv (sq : ℚ → ℚ) (s : DetState) (f b : List ℚ) (now : ℚ)
    (h : detInv s) : detInv (BeatDetector.detectOnset sq s f b now).2 := by
  unfold BeatDetector.detectOnset
  split
  · exact h
  · split
    · exact recordOnset_inv _ _ h
    · exact h

lemma applyDetOp_inv (sq : ℚ → ℚ) (s : DetState) (op : DetOp) (h : detInv s) :
    detInv (applyDetOp sq s op) := by
  cases op with
  | detect f b now => exact detectOnset_inv sq s f b now h
  | record t => exact recordOnset_inv s t h
  | lock => exact ⟨h.1, h.2.1, h.1, h.2.1⟩
  | unlock => exact h
  | reset => exact ⟨show (120:ℤ) ≤ 140 by norm_num, show (140:ℤ) ≤ 190 by norm_num, h.2.2⟩
  | setSensitivity v => exact h
  | setSmoothing v => exact h

lemma runDet_inv (sq : ℚ → ℚ) (ops : List DetOp) : detInv (runDet sq ops) := by
  have hgen : ∀ l : List DetOp, ∀ s : DetState, detInv s →
      detInv (l.foldl (applyDetOp sq) s) := by
    intro l
    induction l with
    | nil => intro s hs; exact hs
    | cons op l ih =>
      intro s hs
      exact ih _ (applyDetOp_inv sq s op hs)
  exact hgen ops BeatDetector.init
    ⟨show (120:ℤ) ≤ 140 by norm_num, show (140:ℤ) ≤ 190 by norm_num,
     show (120:ℤ) ≤ 140 by norm_num, show (140:ℤ) ≤ 190 by norm_num⟩

/-- Claim C10: in every state reachable by detector operations from the
constructor state, the reported BPM (locked snapshot or live estimate) lies
in [120, 190]. -/
theorem claim_C10 (sq : ℚ → ℚ) (ops : List DetOp) :
    120 ≤ BeatDetector.getEstimatedBPM (runDet sq ops) ∧
    BeatDetector.getEstimatedBPM (runDet sq ops) ≤ 190 := by
  have h := runDet_inv sq ops
  unfold BeatDetector.getEstimatedBPM
  split
  · exact ⟨h.2.2.1, h.2.2.2⟩
  · exact ⟨h.1, h.2.1⟩

/-! ## Claim C2 -/

/-- The run that feeds the estimator onsets at the constant interval I:
times 0, I, 2·I, ..., (n-1)·I through recordOnset from the fresh state. -/
def runConstant (I : ℚ) (n : ℕ) : DetState :=
  ((List.range n).map (fun k : ℕ => (k : ℚ) * I)).foldl BeatDetector.recordOnset
    BeatDetector.init

/-- The estimate after n onsets of the constant-interval run. -/
def estAfter (I : ℚ) (n : ℕ) : ℤ := (runConstant I n).estimatedBPM

/-- The candidate the histogram produces for a constant interval I:
round(60000 / bucket) where bucket = round(I/10)·10 is the 10 ms bucket
of I — not round(60000 / I) itself. -/
def candConst (I : ℚ) : ℤ := jsRound (60000 / ((jsRound (I / 10) * 10 : ℤ) : ℚ))

/-- Onset times a·I, (a+1)·I, ..., (a+m-1)·I. -/
def timesFrom (I : ℚ) (a : ℕ) : ℕ → List ℚ
  | 0 => []
  | m + 1 => ((a : ℚ) * I) :: timesFrom I (a + 1) m

lemma timesFrom_length (I : ℚ) : ∀ (m a : ℕ), (timesFrom I a m).length = m := by
  intro m
  induction m with
  | zero => intro a; rfl
  | succ m ih => intro a; simp [timesFrom, ih]

lemma timesFrom_push (I : ℚ) : ∀ (m a : ℕ),
    timesFrom I a (m+1) = timesFrom I a m ++ [((a + m : ℕ) : ℚ) * I] := by
  intro m
  induction m with
  | zero =>
    intro a
    simp [timesFrom]
  | succ m ih =>
    intro a
    show ((a : ℚ) * I) :: timesFrom I (a+1) (m+1)
        = (((a : ℚ) * I) :: timesFrom I (a+1) m) ++ [((a + (m+1) : ℕ) : ℚ) * I]
    rw [List.cons_append, ih (a+1), show a + 1 + m = a + (m+1) from by omega]

lemma zip_diffs_timesFrom (I : ℚ) :
    ∀ (m a : ℕ), List.zipWith (fun x y => y - x) (timesFrom I a m) (timesFrom I a m).tail
      = List.replicate (m - 1) I := by
  intro m
  induction m with
  | zero => intro a; rfl
  | succ m ih =>
    intro a
    cases m with
    | zero => rfl
    | succ m' =>
      have h1 := ih (a + 1)
      simp only [timesFrom, List.tail_cons, List.zipWith_cons_cons,
        Nat.add_sub_cancel] at h1 ⊢
      rw [h1, show ((a + 1 : ℕ) : ℚ) * I - ((a : ℕ) : ℚ) * I = I from by push_cast; ring]
      rfl

lemma intervalsOf_timesFrom (I : ℚ) (h1 : 315 < I) (h2 : I < 500) (a m : ℕ) :
    BeatDetector.intervalsOf (timesFrom I a m) = List.replicate (m - 1) I := by
  unfold BeatDetector.intervalsOf
  rw [zip_diffs_timesFrom, List.filter_replicate]
  simp [h1, h2]

lemma foldl_insert_same (I : ℚ) :
    ∀ (m j : ℕ),
      (List.replicate m I).foldl
          (fun mm iv => BeatDetector.insertBucket mm (jsRound (iv / 10) * 10))
          [(jsRound (I / 10) * 10, j)]
        = [(jsRound (I / 10) * 10, j + m)] := by
  intro m
  induction m with
  | zero => intro j; rfl
  | succ m ih =>
    intro j
    rw [List.replicate_succ, List.foldl_cons]
    have hstep : BeatDetector.insertBucket [(jsRound (I / 10) * 10, j)] (jsRound (I / 10) * 10)
        = [(jsRound (I / 10) * 10, j + 1)] := by
      simp [BeatDetector.insertBucket]
    rw [hstep, ih]
    have h : j + 1 + m = j + (m + 1) := by omega
    rw [h]

lemma bucketsOf_replicate (I : ℚ) (m : ℕ) :
    BeatDetector.bucketsOf (List.replicate (m+1) I) = [(jsRound (I / 10) * 10, m + 1)] := by
  unfold BeatDetector.bucketsOf
  rw [List.replicate_succ, List.foldl_cons]
  have h0 : BeatDetector.insertBucket [] (jsRound (I / 10) * 10)
      = [(jsRound (I / 10) * 10, 1)] := by
    simp [BeatDetector.insertBucket]
  rw [h0, foldl_insert_same]
  have h : 1 + m = m + 1 := by omega
  rw [h]

lemma bestIntervalOf_single (k : ℤ) (m : ℕ) (hm : 0 < m) :
    BeatDetector.bestIntervalOf [(k, m)] = k := by
  unfold BeatDetector.bestIntervalOf
  simp [hm]

lemma candidateOf_timesFrom (I : ℚ) (h1 : 315 < I) (h2 : I < 500) (a m : ℕ)
    (hm : 2 ≤ m) :
    BeatDetector.candidateOf (timesFrom I a m) = candConst I := by
  unfold BeatDetector.candidateOf candConst
  rw [intervalsOf_timesFrom I h1 h2]
  have hm1 : m - 1 = (m - 2) + 1 := by omega
  rw [hm1, bucketsOf_replicate, bestIntervalOf_single _ _ (Nat.succ_pos _)]

lemma candConst_bounds (I : ℚ) (h1 : 315 < I) (h2 : I < 500) :
    120 ≤ candConst I ∧ candConst I ≤ 188 := by
  have hr1 : (32 : ℤ) ≤ ⌊I / 10 + 1/2⌋ := by
    rw [Int.le_floor]
    push_cast
    linarith
  have hr2 : ⌊I / 10 + 1/2⌋ ≤ (50 : ℤ) := by
    have h : ⌊I / 10 + 1/2⌋ < 51 := by
      rw [Int.floor_lt]
      push_cast
      linarith
    omega
  have hq1 : (32 : ℚ) ≤ ((⌊I / 10 + 1/2⌋ : ℤ) : ℚ) := by exact_mod_cast hr1
  have hq2 : ((⌊I / 10 + 1/2⌋ : ℤ) : ℚ) ≤ 50 := by exact_mod_cast hr2
  have hbpos : (0 : ℚ) < ((⌊I / 10 + 1/2⌋ * 10 : ℤ) : ℚ) := by
    push_cast
    linarith
  have h60a : (120 : ℚ) ≤ 60000 / ((⌊I / 10 + 1/2⌋ * 10 : ℤ) : ℚ) := by
    rw [le_div_iff₀ hbpos]
    push_cast
    linarith
  have h60b : 60000 / ((⌊I / 10 + 1/2⌋ * 10 : ℤ) : ℚ) ≤ 375/2 := by
    rw [div_le_iff₀ hbpos]
    push_cast
    linarith
  unfold candConst jsRound
  constructor
  · rw [Int.le_floor]
    push_cast at h60a ⊢
    linarith
  · have h : ⌊60000 / ((⌊I / 10 + 1/2⌋ * 10 : ℤ) : ℚ) + 1/2⌋ < 189 := by
      rw [Int.floor_lt]
      push_cast at h60b ⊢
      linarith
    omega

lemma runConstant_succ (I : ℚ) (n : ℕ) :
    runConstant I (n+1) = BeatDetector.recordOnset (runConstant I n) ((n : ℚ) * I) := by
  unfold runConstant
  rw [List.range_succ, List.map_append, List.foldl_append]
  rfl

lemma pushOnset_timesFrom (I : ℚ) (n : ℕ) :
    BeatDetector.pushOnset (timesFrom I (n - min n 32) (min n 32)) ((n : ℚ) * I)
      = timesFrom I ((n+1) - min (n+1) 32) (min (n+1) 32) := by
  have hpush : timesFrom I (n - min n 32) (min n 32) ++ [(n : ℚ) * I]
      = timesFrom I (n - min n 32) (min n 32 + 1) := by
    rw [timesFrom_push]
    have h : ((n - min n 32 + min n 32 : ℕ) : ℚ) = (n : ℚ) := by
      rw [show n - min n 32 + min n 32 = n from by omega]
    rw [h]
  unfold BeatDetector.pushOnset
  rw [hpush, timesFrom_length]
  by_cases hm : min n 32 + 1 > 32
  · rw [if_pos hm]
    rw [show (timesFrom I (n - min n 32) (min n 32 + 1)).tail
        = timesFrom I (n - min n 32 + 1) (min n 32) from rfl]
    rw [show n - min n 32 + 1 = (n+1) - min (n+1) 32 from by omega,
      show min n 32 = min (n+1) 32 from by omega]
  · rw [if_neg hm]
    rw [show min n 32 + 1 = min (n+1) 32 from by omega,
      show n - min n 32 = (n+1) - min (n+1) 32 from by omega]

lemma runConstant_spec (I : ℚ) : ∀ n : ℕ,
    (runConstant I n).onsetTimes = timesFrom I (n - min n 32) (min n 32) ∧
    (runConstant I n).bpmLocked = false := by
  intro n
  induction n with
  | zero => exact ⟨rfl, rfl⟩
  | succ n ih =>
    rw [runConstant_succ, BeatDetector.recordOnset_unlocked _ _ ih.2]
    refine ⟨?_, ?_⟩
    · rw [BeatDetector.estimateBPM_onsetTimes]
      show BeatDetector.pushOnset (runConstant I n).onsetTimes ((n : ℚ) * I) = _
      rw [ih.1, pushOnset_timesFrom]
    · rw [BeatDetector.estimateBPM_bpmLocked]
      exact ih.2

/-- estimateBPM on a state whose onset list is ≥ 4 equally spaced times
with spacing in (315, 500): the candidate is candConst and is accepted. -/
lemma estimateBPM_timesFrom (s : DetState) (I : ℚ) (a m : ℕ)
    (h1 : 315 < I) (h2 : I < 500) (hs : s.onsetTimes = timesFrom I a m) (hm : 4 ≤ m) :
    BeatDetector.estimateBPM s
      = { s with estimatedBPM := BeatDetector.smoothBPM s.estimatedBPM (candConst I) } := by
  unfold BeatDetector.estimateBPM
  rw [hs, timesFrom_length]
  rw [if_neg (by omega)]
  rw [intervalsOf_timesFrom I h1 h2, List.length_replicate]
  rw [if_neg (by omega)]
  rw [candidateOf_timesFrom I h1 h2 a m (by omega)]
  have hc := candConst_bounds I h1 h2
  rw [if_pos ⟨hc.1, by omega⟩]

lemma estAfter_three (I : ℚ) : estAfter I 3 = 140 := by
  with_unfolding_all rfl

lemma estAfter_succ (I : ℚ) (h1 : 315 < I) (h2 : I < 500) (n : ℕ) (hn : 3 ≤ n) :
    estAfter I (n+1) = BeatDetector.smoothBPM (estAfter I n) (candConst I) := by
  have hspec := runConstant_spec I n
  unfold estAfter
  rw [runConstant_succ, BeatDetector.recordOnset_unlocked _ _ hspec.2]
  have honset : ({ runConstant I n with
        onsetTimes := BeatDetector.pushOnset (runConstant I n).onsetTimes ((n : ℚ) * I) }
        : DetState).onsetTimes
      = timesFrom I ((n+1) - min (n+1) 32) (min (n+1) 32) := by
    show BeatDetector.pushOnset (runConstant I n).onsetTimes ((n : ℚ) * I) = _
    rw [hspec.1, pushOnset_timesFrom]
  rw [estimateBPM_timesFrom _ I ((n+1) - min (n+1) 32) (min (n+1) 32) h1 h2 honset
    (by omega)]

lemma smoothBPM_shift (e c : ℤ) :
    BeatDetector.smoothBPM e c = c + ⌊((e - c : ℤ) : ℚ) * (7/10) + 1/2⌋ := by
  unfold BeatDetector.smoothBPM jsRound
  have h : (e : ℚ) * (7/10) + (c : ℚ) * (3/10) + 1/2
      = (c : ℚ) + (((e - c : ℤ) : ℚ) * (7/10) + 1/2) := by
    push_cast
    ring
  rw [h, Int.floor_int_add]

lemma smoothBPM_fix (e c : ℤ) (h : |e - c| ≤ 1) : BeatDetector.smoothBPM e c = e := by
  rw [smoothBPM_shift]
  have hd := abs_le.mp h
  have h3 : e - c = -1 ∨ e - c = 0 ∨ e - c = 1 := by omega
  rcases h3 with h3 | h3 | h3 <;> rw [h3]
  · rw [show ⌊((-1 : ℤ) : ℚ) * (7/10) + 1/2⌋ = -1 from by with_unfolding_all decide]
    omega
  · rw [show ⌊((0 : ℤ) : ℚ) * (7/10) + 1/2⌋ = 0 from by with_unfolding_all decide]
    omega
  · rw [show ⌊((1 : ℤ) : ℚ) * (7/10) + 1/2⌋ = 1 from by with_unfolding_all decide]
    omega

lemma smoothBPM_contract (e c : ℤ) (h : 2 ≤ |e - c|) :
    |BeatDetector.smoothBPM e c - c| ≤ |e - c| - 1 := by
  rw [smoothBPM_shift,
    show c + ⌊((e - c : ℤ) : ℚ) * (7/10) + 1/2⌋ - c = ⌊((e - c : ℤ) : ℚ) * (7/10) + 1/2⌋
      from by ring]
  have hcases : 2 ≤ e - c ∨ e - c ≤ -2 := by
    rcases abs_cases (e - c) with ⟨ha, _⟩ | ⟨ha, _⟩
    · left
      rw [ha] at h
      exact h
    · right
      rw [ha] at h
      omega
  rcases hcases with hge | hle
  · have hq : (2 : ℚ) ≤ (e : ℚ) - (c : ℚ) := by exact_mod_cast hge
    have hf1 : 1 ≤ ⌊((e - c : ℤ) : ℚ) * (7/10) + 1/2⌋ := by
      rw [Int.le_floor]
      push_cast
      linarith
    have hf2 : ⌊((e - c : ℤ) : ℚ) * (7/10) + 1/2⌋ < e - c := by
      rw [Int.floor_lt]
      push_cast
      linarith
    rw [abs_of_nonneg (by omega : (0:ℤ) ≤ ⌊((e - c : ℤ) : ℚ) * (7/10) + 1/2⌋),
      abs_of_nonneg (by omega : (0:ℤ) ≤ e - c)]
    omega
  · have hq : (e : ℚ) - (c : ℚ) ≤ -2 := by exact_mod_cast hle
    have hf1 : e - c + 1 ≤ ⌊((e - c : ℤ) : ℚ) * (7/10) + 1/2⌋ := by
      rw [Int.le_floor]
      push_cast
      linarith
    have hf2 : ⌊((e - c : ℤ) : ℚ) * (7/10) + 1/2⌋ < 0 := by
      rw [Int.floor_lt]
      push_cast
      linarith
    rw [abs_of_nonpos (by omega : ⌊((e - c : ℤ) : ℚ) * (7/10) + 1/2⌋ ≤ 0),
      abs_of_nonpos (by omega : e - c ≤ 0)]
    omega

lemma estAfter_close (I : ℚ) (h1 : 315 < I) (h2 : I < 500) :
    ∀ k : ℕ, |estAfter I (3 + k) - candConst I| ≤ max (48 - (k : ℤ)) 1 := by
  intro k
  induction k with
  | zero =>
    rw [show 3 + 0 = 3 from rfl, estAfter_three]
    have hc := candConst_bounds I h1 h2
    simp only [Nat.cast_zero, sub_zero]
    rw [max_eq_left (by omega : (1:ℤ) ≤ 48), abs_le]
    omega
  | succ k ih =>
    rw [show 3 + (k+1) = (3 + k) + 1 from by omega]
    rw [estAfter_succ I h1 h2 (3+k) (by omega)]
    by_cases hcl : |estAfter I (3+k) - candConst I| ≤ 1
    · rw [smoothBPM_fix _ _ hcl]
      exact le_trans hcl (le_max_right _ _)
    · push_neg at hcl
      have h2le : 2 ≤ |estAfter I (3+k) - candConst I| := by omega
      have hco := smoothBPM_contract _ _ h2le
      have hmax : max (48 - (k:ℤ)) 1 = 48 - (k:ℤ) := by
        rcases le_or_lt (48 - (k:ℤ)) 1 with hm | hm
        · rw [max_eq_right hm] at ih
          omega
        · exact max_eq_left (by omega)
      rw [hmax] at ih
      refine le_trans (le_trans hco ?_) (le_max_left _ _)
      push_cast
      omega

lemma estAfter_const (I : ℚ) (h1 : 315 < I) (h2 : I < 500) (m : ℕ) (hm : 3 ≤ m)
    (hclose : |estAfter I m - candConst I| ≤ 1) :
    ∀ n : ℕ, m ≤ n → estAfter I n = estAfter I m := by
  intro n hn
  induction n, hn using Nat.le_induction with
  | base => rfl
  | succ n hn ih =>
    rw [estAfter_succ I h1 h2 n (by omega), ih, smoothBPM_fix _ _ hclose]

/-- Claim C2 (amended): for a constant inter-onset interval I with
315 < I < 500 fed to an unlocked estimator, every re-estimation (from the
4th onset on) accepts the candidate candConst I = round(60000 /
(round(I/10)·10)) derived from the modal 10 ms bucket — not
round(60000/I) — and the estimate is constant from the 50th onset on at a
fixed point within 1 BPM of that candidate (the integer-rounded smoothing
can come to rest at candidate ± 1). -/
theorem claim_C2 (I : ℚ) (h1 : 315 < I) (h2 : I < 500) (n : ℕ) (hn : 50 ≤ n) :
    estAfter I n = estAfter I 50 ∧
    |estAfter I 50 - candConst I| ≤ 1 ∧
    120 ≤ candConst I ∧ candConst I ≤ 190 := by
  have hcl := estAfter_close I h1 h2 47
  rw [show 3 + 47 = 50 from rfl] at hcl
  have hmax : max ((48 : ℤ) - ((47 : ℕ) : ℤ)) 1 = 1 := by norm_num
  rw [hmax] at hcl
  have hc := candConst_bounds I h1 h2
  exact ⟨estAfter_const I h1 h2 50 (by omega) hcl n hn, hcl, hc.1, by omega⟩

/-- Witness for C2 (amended) at I = 400, n = 51. -/
theorem claim_C2_witness :
    estAfter 400 51 = estAfter 400 50 ∧
    |estAfter 400 50 - candConst 400| ≤ 1 ∧
    120 ≤ candConst 400 ∧ candConst 400 ≤ 190 :=
  claim_C2 400 (by norm_num) (by norm_num) 51 (by norm_num)

/-- Counterexample to C2 as stated: at the constant interval I = 400 ms
(round(60000/I) = 150, inside 315 < I < 500, candidate 150 accepted at
every re-estimation) the estimate never converges to 150: it reaches the
rounding fixed point 149 by the 8th onset and stays there for all later
onsets. -/
theorem claim_C2_counterexample :
    jsRound ((60000 : ℚ) / 400) = 150 ∧
    ¬ ∃ N : ℕ, ∀ n : ℕ, N ≤ n → estAfter 400 n = jsRound ((60000 : ℚ) / 400) := by
  have h150 : jsRound ((60000 : ℚ) / 400) = 150 := by with_unfolding_all decide
  refine ⟨h150, ?_⟩
  rintro ⟨N, hN⟩
  have h8 : estAfter 400 8 = 149 := by with_unfolding_all decide
  have hc : candConst 400 = 150 := by with_unfolding_all decide
  have hclose : |estAfter 400 8 - candConst 400| ≤ 1 := by
    rw [h8, hc]
    norm_num
  have hconst := estAfter_const 400 (by norm_num) (by norm_num) 8 (by norm_num) hclose
  have hbig := hN (max N 8) (le_max_left _ _)
  rw [hconst (max N 8) (le_max_right _ _), h8, h150] at hbig
  norm_num at hbig

end RaveFlow
